import Mathlib

/-!
Verification development for a minimal single-shot HTTP/1.1 static file
server (Server.cpp).  The request-handling pipeline is shallowly embedded
over `List Char` (one `Char` per byte of the C++ `std::string`): request
parsing, percent/plus decoding, path safety checking, MIME resolution,
response framing and the dispatcher.  The filesystem is an explicit
collaborator `fs : List Char → List Char` mapping a path to the bytes that
`read_file` would return (the empty list standing for missing, unreadable
or empty files, exactly as `read_file` collapses those cases).
-/

namespace Diet

/-- The response the dispatcher hands to `send_response`: status code,
content type and body bytes. -/
structure Response where
  status : Nat
  content_type : List Char
  body : List Char
deriving DecidableEq

/-- `leadsWith pat s` is true when `pat` occurs at the very start of `s`. -/
def leadsWith : List Char → List Char → Bool
  | [], _ => true
  | _ :: _, [] => false
  | p :: ps, c :: cs => p == c && leadsWith ps cs

/-- Model of `std::string::find(pattern)`: index of the first occurrence of
`pat` in `s`, or `none` for `npos`. -/
def findSub (pat : List Char) : List Char → Option Nat
  | [] => if leadsWith pat [] then some 0 else none
  | c :: rest =>
    if leadsWith pat (c :: rest) then some 0
    else Option.map (· + 1) (findSub pat rest)

/-- `s.find(pat) != npos` as a Bool. -/
def containsSub (pat s : List Char) : Bool := (findSub pat s).isSome

/-- Model of `std::string::find(char)`. -/
def findChar (c : Char) : List Char → Option Nat
  | [] => none
  | x :: rest =>
    if x == c then some 0
    else Option.map (· + 1) (findChar c rest)

/-- Model of `std::string::find(char, pos)`: first occurrence at index
`≥ pos`, as an absolute index. -/
def findCharFrom (c : Char) (pos : Nat) (s : List Char) : Option Nat :=
  Option.map (pos + ·) (findChar c (s.drop pos))

/-- Model of `std::string::find_last_of(char)`: index of the last
occurrence. -/
def findLast (c : Char) : List Char → Option Nat
  | [] => none
  | x :: rest =>
    match findLast c rest with
    | some i => some (i + 1)
    | none => if x == c then some 0 else none

/-- `parse_request_line` (Server.cpp lines 249-262): method is the text
before the first space, path the text between the first and second space;
fails when fewer than two spaces are present. -/
def parse_request_line (line : List Char) : Option (List Char × List Char) :=
  match findChar ' ' line with
  | none => none
  | some space1 =>
    match findCharFrom ' ' (space1 + 1) line with
    | none => none
    | some space2 =>
      some (line.take space1, (line.drop (space1 + 1)).take (space2 - space1 - 1))

/-- Value of a hex digit character (0-9, a-f, A-F), as consumed by the
`stringstream >> hex` extraction in `url_decode`. -/
def hexDigitVal (c : Char) : Option Nat :=
  if 48 ≤ c.toNat ∧ c.toNat ≤ 57 then some (c.toNat - 48)
  else if 97 ≤ c.toNat ∧ c.toNat ≤ 102 then some (c.toNat - 97 + 10)
  else if 65 ≤ c.toNat ∧ c.toNat ≤ 70 then some (c.toNat - 65 + 10)
  else none

/-- Model of `stringstream ss; ss << hex << two_char_string; ss >> value`:
an optional sign, then the maximal run of hex digits; a failed extraction
writes 0 (C++11 semantics). -/
def parseHexPair (c1 c2 : Char) : Int :=
  if c1 = '+' then
    match hexDigitVal c2 with
    | some v => (v : Int)
    | none => 0
  else if c1 = '-' then
    match hexDigitVal c2 with
    | some v => -(v : Int)
    | none => 0
  else
    match hexDigitVal c1 with
    | none => 0
    | some v1 =>
      match hexDigitVal c2 with
      | none => (v1 : Int)
      | some v2 => 16 * v1 + v2

/-- `static_cast<char>(hex_value)` viewed as the byte it stores. -/
def byteOfInt (v : Int) : Char := Char.ofNat ((v % 256).toNat)

/-- `url_decode` (Server.cpp lines 265-287).  A `%` is decoded only when the
loop condition `i + 2 < encoded.size()` holds, i.e. at least two characters
follow it; `+` becomes a space; everything else passes through. -/
def url_decode : List Char → List Char
  | [] => []
  | '%' :: c1 :: c2 :: rest => byteOfInt (parseHexPair c1 c2) :: url_decode rest
  | c :: rest => if c = '+' then ' ' :: url_decode rest else c :: url_decode rest

/-- `is_safe_path` (Server.cpp lines 290-295): rejects any path containing
`..`, `//` or a backslash as a literal substring. -/
def is_safe_path (path : List Char) : Bool :=
  if containsSub ('.' :: '.' :: []) path then false
  else if containsSub ('/' :: '/' :: []) path then false
  else if path.contains '\\' then false
  else true

/-- The fixed extension table (Server.cpp lines 44-57), keyed by the
extension including its dot. -/
def mime_types : List (List Char × List Char) :=
  [(".html".toList, "text/html; charset=utf-8".toList),
   (".htm".toList, "text/html; charset=utf-8".toList),
   (".css".toList, "text/css; charset=utf-8".toList),
   (".js".toList, "application/javascript; charset=utf-8".toList),
   (".json".toList, "application/json; charset=utf-8".toList),
   (".png".toList, "image/png".toList),
   (".jpg".toList, "image/jpeg".toList),
   (".jpeg".toList, "image/jpeg".toList),
   (".gif".toList, "image/gif".toList),
   (".ico".toList, "image/x-icon".toList),
   (".txt".toList, "text/plain; charset=utf-8".toList),
   (".svg".toList, "image/svg+xml".toList)]

/-- `::tolower` in the C locale on the bytes that occur here: lower-cases
ASCII A-Z, leaves everything else alone. -/
def toLowerAscii (c : Char) : Char :=
  if 65 ≤ c.toNat ∧ c.toNat ≤ 90 then Char.ofNat (c.toNat + 32) else c

/-- `get_mime_type` (Server.cpp lines 298-312): substring from the last `.`
to the end, lower-cased, looked up in the table; default
`application/octet-stream`. -/
def get_mime_type (filename : List Char) : List Char :=
  match findLast '.' filename with
  | none => "application/octet-stream".toList
  | some dot_pos =>
    match List.lookup ((filename.drop dot_pos).map toLowerAscii) mime_types with
    | some t => t
    | none => "application/octet-stream".toList

/-- The fixed status-text table in `send_response` (Server.cpp 364-371). -/
def status_texts : List (Nat × List Char) :=
  [(200, "OK".toList),
   (400, "Bad Request".toList),
   (403, "Forbidden".toList),
   (404, "Not Found".toList),
   (405, "Method Not Allowed".toList),
   (500, "Internal Server Error".toList)]

/-- Status text resolution in `send_response`: table lookup with fallback
`"Unknown"`. -/
def statusTextOf (status_code : Nat) : List Char :=
  match List.lookup status_code status_texts with
  | some t => t
  | none => "Unknown".toList

/-- `build_response_headers` (Server.cpp 341-356).  The `Date` header value
comes from the wall clock, so it is a parameter here. -/
def build_response_headers (status_code : Nat) (status_text content_type : List Char)
    (content_length : Nat) (date : List Char) : List Char :=
  "HTTP/1.1 ".toList ++ (Nat.repr status_code).toList ++ " ".toList ++ status_text
    ++ "\r\n".toList
    ++ "Server: MyHttpServer/1.0\r\n".toList
    ++ "Date: ".toList ++ date ++ "\r\n".toList
    ++ "Content-Type: ".toList ++ content_type ++ "\r\n".toList
    ++ "Content-Length: ".toList ++ (Nat.repr content_length).toList ++ "\r\n".toList
    ++ "Connection: close\r\n".toList
    ++ "\r\n".toList

/-- The bytes `send_response` (Server.cpp 359-386) writes to the socket:
headers (with the status text resolved and `Content-Length` set to the body
length), then the body.  An empty body adds no bytes, so concatenation is
exact in both cases. -/
def send_response_bytes (date : List Char) (status_code : Nat)
    (content_type body : List Char) : List Char :=
  build_response_headers status_code (statusTextOf status_code) content_type
    body.length date ++ body

/-- `generate_error_page` (Server.cpp 389-412), the synthesized HTML error
body. -/
def generate_error_page (status_code : Nat) (message : List Char) : List Char :=
  "<!DOCTYPE html><html><head><title>".toList
    ++ (Nat.repr status_code).toList ++ " ".toList ++ message
    ++ "</title><style>body \x7b font-family: Arial, sans-serif; text-align: center; padding: 50px; \x7dh1 \x7b color: #333; \x7dp \x7b color: #666; \x7d.container \x7b max-width: 500px; margin: 0 auto; \x7d</style></head><body><div class=\x27container\x27><h1>".toList
    ++ (Nat.repr status_code).toList ++ " - ".toList ++ message
    ++ "</h1><p>Custom HTTP Server</p></div></body></html>".toList

/-- The 400 response produced by every early-exit branch of
`handle_request`. -/
def bad_request_response : Response :=
  ⟨400, "text/html".toList, generate_error_page 400 "Bad Request".toList⟩

/-- Path normalization in `handle_request` (Server.cpp 457-463): empty or
`/` becomes `index.html`; a single leading `/` is stripped. -/
def normalize_path (path : List Char) : List Char :=
  if path = [] ∨ path = '/' :: [] then "index.html".toList
  else
    match path with
    | '/' :: rest => rest
    | p => p

/-- The resolved path handed to `read_file`: the normalized target after
percent/plus decoding (Server.cpp 457-466). -/
def resolved_path_of (path : List Char) : List Char :=
  url_decode (normalize_path path)

/-- The tail of `handle_request` after the request line is parsed
(Server.cpp 443-481): method check, safety check, normalization, decoding,
file lookup, MIME resolution. -/
def dispatch (fs : List Char → List Char) (method path : List Char) : Response :=
  if method ≠ "GET".toList ∧ method ≠ "HEAD".toList then
    ⟨405, "text/html".toList, generate_error_page 405 "Method Not Allowed".toList⟩
  else if is_safe_path path = false then
    ⟨403, "text/html".toList, generate_error_page 403 "Forbidden".toList⟩
  else
    let filename := resolved_path_of path
    let content := fs filename
    if content = [] then
      ⟨404, "text/html".toList, generate_error_page 404 "Not Found".toList⟩
    else ⟨200, get_mime_type filename, content⟩

/-- The response of `handle_request` expressed as a function of the method
and the bytes `r` following the first space of the raw buffer, used to
factor proofs about buffers of the shape `method ++ " " ++ r` (see
`handle_request_method`). -/
def handle_stage2 (fs : List Char → List Char) (m r : List Char) : Response :=
  match findSub ('\r' :: '\n' :: '\r' :: '\n' :: []) r with
  | none => bad_request_response
  | some k =>
    match findSub ('\r' :: '\n' :: []) (r.take k) with
    | none => bad_request_response
    | some j =>
      match findChar ' ' ((r.take k).take j) with
      | none => bad_request_response
      | some j2 => dispatch fs m (((r.take k).take j).take j2)

/-- `handle_request` (Server.cpp 415-482): header-terminator check, request
line extraction, request line parse, then `dispatch`. -/
def handle_request (fs : List Char → List Char) (request : List Char) : Response :=
  match findSub ('\r' :: '\n' :: '\r' :: '\n' :: []) request with
  | none => bad_request_response
  | some header_end =>
    match findSub ('\r' :: '\n' :: []) (request.take header_end) with
    | none => bad_request_response
    | some line_end =>
      match parse_request_line ((request.take header_end).take line_end) with
      | none => bad_request_response
      | some (method, path) => dispatch fs method path

/-! ### Helper lemmas about the search primitives -/

theorem drop_len_succ (l : List Char) (c : Char) (r : List Char) :
    (l ++ c :: r).drop (l.length + 1) = r := by
  induction l with
  | nil => simp
  | cons x xs ih =>
    simp only [List.cons_append, List.length_cons, List.drop_succ_cons]
    exact ih

theorem leadsWith_iff (p s : List Char) : leadsWith p s = true ↔ ∃ t, s = p ++ t := by
  induction p generalizing s with
  | nil => simp [leadsWith]
  | cons x xs ih =>
    cases s with
    | nil => simp [leadsWith]
    | cons c cs =>
      simp only [leadsWith, Bool.and_eq_true, beq_iff_eq, ih]
      constructor
      · rintro ⟨rfl, t, rfl⟩
        exact ⟨t, rfl⟩
      · rintro ⟨t, h⟩
        rw [List.cons_append] at h
        cases h
        exact ⟨rfl, t, rfl⟩

theorem containsSub_cons (pat : List Char) (c : Char) (cs : List Char) :
    containsSub pat (c :: cs) = (leadsWith pat (c :: cs) || containsSub pat cs) := by
  simp only [containsSub, findSub]
  by_cases h : leadsWith pat (c :: cs) = true
  · simp [h]
  · cases hfs : findSub pat cs <;> simp [h, hfs]

theorem containsSub_iff (pat s : List Char) :
    containsSub pat s = true ↔ ∃ a b, s = a ++ pat ++ b := by
  induction s with
  | nil =>
    constructor
    · intro h
      simp only [containsSub, findSub] at h
      by_cases hl : leadsWith pat [] = true
      · obtain ⟨t, ht⟩ := (leadsWith_iff pat []).mp hl
        refine ⟨[], [], ?_⟩
        cases pat with
        | nil => rfl
        | cons x xs => simp at ht
      · simp [hl] at h
    · rintro ⟨a, b, hab⟩
      have hpat : pat = [] := by
        cases a <;> cases pat <;> simp_all
      subst hpat
      simp [containsSub, findSub, leadsWith]
  | cons c cs ih =>
    rw [containsSub_cons, Bool.or_eq_true, leadsWith_iff, ih]
    constructor
    · rintro (⟨t, ht⟩ | ⟨a, b, rfl⟩)
      · exact ⟨[], t, by simp [ht]⟩
      · exact ⟨c :: a, b, by simp⟩
    · rintro ⟨a, b, hab⟩
      cases a with
      | nil => exact Or.inl ⟨b, by simpa using hab⟩
      | cons a0 as =>
        simp only [List.cons_append, List.cons.injEq] at hab
        exact Or.inr ⟨as, b, hab.2⟩

theorem findSub_append_of_ne (pc : Char) (pt l r : List Char)
    (hl : ∀ x ∈ l, x ≠ pc) :
    findSub (pc :: pt) (l ++ r) = Option.map (l.length + ·) (findSub (pc :: pt) r) := by
  induction l with
  | nil =>
    simp only [List.nil_append, List.length_nil]
    cases findSub (pc :: pt) r <;> simp
  | cons x xs ih =>
    have hx : x ≠ pc := hl x (by simp)
    have hxs : ∀ y ∈ xs, y ≠ pc := fun y hy => hl y (by simp [hy])
    have hlw : leadsWith (pc :: pt) (x :: (xs ++ r)) = false := by
      simp only [leadsWith, Bool.and_eq_false_iff]
      left
      simp [beq_eq_false_iff_ne]
      exact fun h => hx h.symm
    rw [List.cons_append]
    simp only [findSub, hlw, if_neg (by simp : ¬(false = true)), ih hxs]
    cases findSub (pc :: pt) r with
    | none => simp
    | some v => simp; omega

theorem findChar_append_of_ne (c : Char) (l r : List Char) (hl : ∀ x ∈ l, x ≠ c) :
    findChar c (l ++ r) = Option.map (l.length + ·) (findChar c r) := by
  induction l with
  | nil =>
    simp only [List.nil_append, List.length_nil]
    cases findChar c r <;> simp
  | cons x xs ih =>
    have hx : x ≠ c := hl x (by simp)
    have hxs : ∀ y ∈ xs, y ≠ c := fun y hy => hl y (by simp [hy])
    rw [List.cons_append]
    simp only [findChar, beq_eq_false_iff_ne.mpr hx,
      if_neg (by simp : ¬(false = true)), ih hxs]
    cases findChar c r with
    | none => simp
    | some v => simp; omega

theorem findChar_some (c : Char) (s : List Char) (i : Nat)
    (h : findChar c s = some i) :
    ∃ a b, s = a ++ c :: b ∧ a.length = i ∧ c ∉ a := by
  induction s generalizing i with
  | nil => simp [findChar] at h
  | cons x xs ih =>
    by_cases hx : x = c
    · subst hx
      simp [findChar] at h
      exact ⟨[], xs, by simp, by simp [← h], by simp⟩
    · simp only [findChar, beq_eq_false_iff_ne.mpr hx,
        if_neg (by simp : ¬(false = true))] at h
      cases hfc : findChar c xs with
      | none => rw [hfc] at h; simp at h
      | some j =>
        rw [hfc] at h
        simp only [Option.map_some'] at h
        have hi : j + 1 = i := Option.some.inj h
        obtain ⟨a, b, hab, hlen, hmem⟩ := ih j hfc
        exact ⟨x :: a, b, by simp [hab], by simp [hlen, hi], by
          simp only [List.mem_cons, not_or]
          exact ⟨fun hxc => hx hxc.symm, hmem⟩⟩

theorem findLast_eq_none (c : Char) (s : List Char) (h : c ∉ s) :
    findLast c s = none := by
  induction s with
  | nil => rfl
  | cons x xs ih =>
    have hx : x ≠ c := fun hxc => h (by simp [hxc])
    have hxs : c ∉ xs := fun hm => h (by simp [hm])
    simp [findLast, ih hxs, beq_eq_false_iff_ne.mpr hx]

theorem findLast_append_last (c : Char) (xs ys : List Char) (h : c ∉ ys) :
    findLast c (xs ++ c :: ys) = some xs.length := by
  induction xs with
  | nil => simp [findLast, findLast_eq_none c ys h]
  | cons x l ih => simp [findLast, ih]

/-! ### Helper lemmas about `url_decode` -/

theorem url_decode_nil : url_decode [] = [] := rfl

theorem url_decode_pct (c1 c2 : Char) (rest : List Char) :
    url_decode ('%' :: c1 :: c2 :: rest) =
      byteOfInt (parseHexPair c1 c2) :: url_decode rest := rfl

theorem url_decode_plus (rest : List Char) :
    url_decode ('+' :: rest) = ' ' :: url_decode rest := rfl

theorem url_decode_pct_end : url_decode ('%' :: []) = '%' :: [] := rfl

theorem url_decode_pct_one (c : Char) :
    url_decode ('%' :: c :: []) = '%' :: url_decode (c :: []) := rfl

theorem url_decode_other (c : Char) (rest : List Char)
    (hc1 : c ≠ '%') (hc2 : c ≠ '+') :
    url_decode (c :: rest) = c :: url_decode rest := by
  rw [url_decode.eq_def]
  split
  · rename_i heq
    exact absurd heq (by simp)
  · rename_i c1 c2 r heq
    rw [List.cons.injEq] at heq
    exact absurd heq.1 hc1
  · rename_i hno heq
    injection heq with h1 h2
    subst h1
    subst h2
    rw [if_neg hc2]

theorem url_decode_plain_append (s t : List Char)
    (hs : ∀ x ∈ s, x ≠ '%' ∧ x ≠ '+') :
    url_decode (s ++ t) = s ++ url_decode t := by
  induction s with
  | nil => rfl
  | cons c cs ih =>
    have h := hs c (by simp)
    rw [List.cons_append, url_decode_other c _ h.1 h.2,
      ih (fun y hy => hs y (by simp [hy])), List.cons_append]

theorem url_decode_ne_nil (s : List Char) (hs : s ≠ []) : url_decode s ≠ [] := by
  cases s with
  | nil => exact absurd rfl hs
  | cons c rest =>
    by_cases hp : c = '%'
    · subst hp
      cases rest with
      | nil => simp [url_decode_pct_end]
      | cons c1 r1 =>
        cases r1 with
        | nil => simp [url_decode_pct_one]
        | cons c2 r2 => simp [url_decode_pct]
    · by_cases hpl : c = '+'
      · subst hpl
        simp [url_decode_plus]
      · simp [url_decode_other c rest hp hpl]

/-! ### Helper lemmas about parsing and the safety check -/

theorem parse_line_method (m s : List Char) (hm : ∀ x ∈ m, x ≠ ' ') :
    parse_request_line (m ++ ' ' :: s) =
      (match findChar ' ' s with
       | none => none
       | some j => some (m, s.take j)) := by
  have h1 : findChar ' ' (m ++ ' ' :: s) = some m.length := by
    rw [findChar_append_of_ne ' ' m (' ' :: s) hm]
    simp [findChar]
  have h2 : (m ++ ' ' :: s).drop (m.length + 1) = s := drop_len_succ m ' ' s
  have h3 : (m ++ ' ' :: s).take m.length = m := List.take_left m (' ' :: s)
  simp only [parse_request_line, h1, findCharFrom, h2]
  cases hfc : findChar ' ' s with
  | none => simp
  | some j =>
    simp only [Option.map_some', h2, h3]
    have : m.length + 1 + j - m.length - 1 = j := by omega
    rw [this]

theorem is_safe_path_iff (p : List Char) :
    is_safe_path p = true ↔
      (¬∃ a b, p = a ++ ('.' :: '.' :: []) ++ b) ∧
      (¬∃ a b, p = a ++ ('/' :: '/' :: []) ++ b) ∧
      '\\' ∉ p := by
  simp only [is_safe_path]
  constructor
  · intro h
    by_cases h1 : containsSub ('.' :: '.' :: []) p = true
    · rw [if_pos h1] at h; exact absurd h (by simp)
    · by_cases h2 : containsSub ('/' :: '/' :: []) p = true
      · rw [if_neg h1, if_pos h2] at h; exact absurd h (by simp)
      · by_cases h3 : p.contains '\\' = true
        · rw [if_neg h1, if_neg h2, if_pos h3] at h; exact absurd h (by simp)
        · refine ⟨?_, ?_, ?_⟩
          · rw [← containsSub_iff]; exact h1
          · rw [← containsSub_iff]; exact h2
          · intro hm; exact h3 (List.elem_iff.mpr hm)
  · rintro ⟨h1, h2, h3⟩
    rw [if_neg (by rw [containsSub_iff]; exact h1),
      if_neg (by rw [containsSub_iff]; exact h2),
      if_neg (fun hc => h3 (List.elem_iff.mp hc))]

theorem is_safe_path_tail (c : Char) (rest : List Char)
    (h : is_safe_path (c :: rest) = true) : is_safe_path rest = true := by
  rw [is_safe_path_iff] at h ⊢
  obtain ⟨h1, h2, h3⟩ := h
  refine ⟨?_, ?_, ?_⟩
  · rintro ⟨a, b, rfl⟩
    exact h1 ⟨c :: a, b, by simp⟩
  · rintro ⟨a, b, rfl⟩
    exact h2 ⟨c :: a, b, by simp⟩
  · intro hm
    exact h3 (by simp [hm])

theorem normalize_path_default (p : List Char) (h : p = [] ∨ p = '/' :: []) :
    normalize_path p = "index.html".toList := by
  unfold normalize_path
  rw [if_pos h]

theorem normalize_path_slash (rest : List Char) (h : rest ≠ []) :
    normalize_path ('/' :: rest) = rest := by
  unfold normalize_path
  rw [if_neg (by simp [h])]
  split
  · rename_i r heq
    injection heq with _ h2
    rw [h2]
  · rename_i hno heq
    exact (heq rest rfl).elim

theorem normalize_path_cons_ne (c : Char) (rest : List Char) (hc : c ≠ '/') :
    normalize_path (c :: rest) = c :: rest := by
  unfold normalize_path
  rw [if_neg (by simp [hc])]
  split
  · rename_i r heq
    injection heq with h1 _
    exact absurd h1 hc
  · rfl

theorem normalize_path_ne_nil (p : List Char) : normalize_path p ≠ [] := by
  by_cases hp : p = [] ∨ p = '/' :: []
  · rw [normalize_path_default p hp]
    decide
  · cases p with
    | nil => exact absurd (Or.inl rfl) hp
    | cons c rest =>
      by_cases hc : c = '/'
      · subst hc
        have hr : rest ≠ [] := by
          intro hr
          exact hp (Or.inr (by rw [hr]))
        rw [normalize_path_slash rest hr]
        exact hr
      · rw [normalize_path_cons_ne c rest hc]
        simp

theorem is_safe_path_normalize (p : List Char) (h : is_safe_path p = true) :
    is_safe_path (normalize_path p) = true := by
  by_cases hp : p = [] ∨ p = '/' :: []
  · rw [normalize_path_default p hp]
    decide
  · cases p with
    | nil => exact absurd (Or.inl rfl) hp
    | cons c rest =>
      by_cases hc : c = '/'
      · subst hc
        have hr : rest ≠ [] := by
          intro hr
          exact hp (Or.inr (by rw [hr]))
        rw [normalize_path_slash rest hr]
        exact is_safe_path_tail '/' rest h
      · rw [normalize_path_cons_ne c rest hc]
        exact h

/-! ### Helper lemmas about hex decoding -/

theorem hexDigitVal_lt (c : Char) (v : Nat) (h : hexDigitVal c = some v) : v < 16 := by
  simp only [hexDigitVal] at h
  split_ifs at h with h1 h2 h3
  · injection h with h
    omega
  · injection h with h
    omega
  · injection h with h
    omega

theorem hexDigitVal_ne_plus (c : Char) (v : Nat) (h : hexDigitVal c = some v) :
    c ≠ '+' := by
  intro hc
  rw [hc, show hexDigitVal '+' = none from rfl] at h
  exact absurd h (by simp)

theorem hexDigitVal_ne_minus (c : Char) (v : Nat) (h : hexDigitVal c = some v) :
    c ≠ '-' := by
  intro hc
  rw [hc, show hexDigitVal '-' = none from rfl] at h
  exact absurd h (by simp)

theorem parseHexPair_hex (c1 c2 : Char) (v1 v2 : Nat)
    (h1 : hexDigitVal c1 = some v1) (h2 : hexDigitVal c2 = some v2) :
    parseHexPair c1 c2 = ((16 * v1 + v2 : Nat) : Int) := by
  rw [parseHexPair, if_neg (hexDigitVal_ne_plus c1 v1 h1),
    if_neg (hexDigitVal_ne_minus c1 v1 h1), h1, h2]
  push_cast
  ring

theorem byteOfInt_small (n : Nat) (h : n < 256) : byteOfInt (n : Int) = Char.ofNat n := by
  unfold byteOfInt
  congr 1
  omega

theorem url_decode_hex (c1 c2 : Char) (v1 v2 : Nat) (rest : List Char)
    (h1 : hexDigitVal c1 = some v1) (h2 : hexDigitVal c2 = some v2) :
    url_decode ('%' :: c1 :: c2 :: rest) =
      Char.ofNat (16 * v1 + v2) :: url_decode rest := by
  have hb : 16 * v1 + v2 < 256 := by
    have := hexDigitVal_lt c1 v1 h1
    have := hexDigitVal_lt c2 v2 h2
    omega
  rw [url_decode_pct, parseHexPair_hex c1 c2 v1 v2 h1 h2, byteOfInt_small _ hb]

/-! ### Helper lemmas about MIME and status-text resolution -/

theorem get_mime_type_no_dot (f : List Char) (h : '.' ∉ f) :
    get_mime_type f = "application/octet-stream".toList := by
  rw [get_mime_type, findLast_eq_none '.' f h]

theorem get_mime_type_ext (f ext : List Char) (hne : '.' ∉ ext) :
    get_mime_type (f ++ '.' :: ext) =
      (match List.lookup (('.' :: ext).map toLowerAscii) mime_types with
       | some t => t
       | none => "application/octet-stream".toList) := by
  rw [get_mime_type, findLast_append_last '.' f ext hne]
  simp only [List.drop_left]

theorem statusTextOf_eq (code : Nat) :
    statusTextOf code =
      (if code = 200 then "OK".toList
       else if code = 400 then "Bad Request".toList
       else if code = 403 then "Forbidden".toList
       else if code = 404 then "Not Found".toList
       else if code = 405 then "Method Not Allowed".toList
       else if code = 500 then "Internal Server Error".toList
       else "Unknown".toList) := by
  by_cases h1 : code = 200
  · subst h1
    rfl
  by_cases h2 : code = 400
  · subst h2
    rfl
  by_cases h3 : code = 403
  · subst h3
    rfl
  by_cases h4 : code = 404
  · subst h4
    rfl
  by_cases h5 : code = 405
  · subst h5
    rfl
  by_cases h6 : code = 500
  · subst h6
    rfl
  rw [if_neg h1, if_neg h2, if_neg h3, if_neg h4, if_neg h5, if_neg h6]
  simp only [statusTextOf, status_texts, List.lookup,
    beq_eq_false_iff_ne.mpr h1, beq_eq_false_iff_ne.mpr h2,
    beq_eq_false_iff_ne.mpr h3, beq_eq_false_iff_ne.mpr h4,
    beq_eq_false_iff_ne.mpr h5, beq_eq_false_iff_ne.mpr h6]

/-! ### Helper lemmas about the dispatcher -/

theorem dispatch_allowed (fs : List Char → List Char) (method path : List Char)
    (hm : method = "GET".toList ∨ method = "HEAD".toList) :
    dispatch fs method path =
      (if is_safe_path path = false then
        ⟨403, "text/html".toList, generate_error_page 403 "Forbidden".toList⟩
       else if fs (resolved_path_of path) = [] then
        ⟨404, "text/html".toList, generate_error_page 404 "Not Found".toList⟩
       else ⟨200, get_mime_type (resolved_path_of path), fs (resolved_path_of path)⟩) := by
  have hcond : ¬(method ≠ "GET".toList ∧ method ≠ "HEAD".toList) := by
    rcases hm with rfl | rfl
    · simp
    · simp
  rw [dispatch, if_neg hcond]

theorem dispatch_head_eq_get (fs : List Char → List Char) (path : List Char) :
    dispatch fs "HEAD".toList path = dispatch fs "GET".toList path := by
  rw [dispatch_allowed fs _ path (Or.inr rfl), dispatch_allowed fs _ path (Or.inl rfl)]

theorem handle_request_method (fs : List Char → List Char) (m r : List Char)
    (hm : ∀ x ∈ m, x ≠ ' ' ∧ x ≠ '\r') :
    handle_request fs (m ++ ' ' :: r) = handle_stage2 fs m r := by
  have hsp : ∀ x ∈ m ++ (' ' :: []), x ≠ '\r' := by
    intro x hx
    rcases List.mem_append.mp hx with hx | hx
    · exact (hm x hx).2
    · simp at hx
      subst hx
      decide
  have e1 : m ++ ' ' :: r = (m ++ (' ' :: [])) ++ r := by simp
  rw [handle_request, e1, findSub_append_of_ne '\r' _ _ r hsp]
  cases hf1 : findSub ('\r' :: '\n' :: '\r' :: '\n' :: []) r with
  | none => simp only [Option.map_none', handle_stage2, hf1]
  | some k =>
    simp only [Option.map_some']
    rw [List.take_append k, findSub_append_of_ne '\r' _ _ (r.take k) hsp]
    cases hf2 : findSub ('\r' :: '\n' :: []) (r.take k) with
    | none => simp only [Option.map_none', handle_stage2, hf1, hf2]
    | some j =>
      simp only [Option.map_some']
      rw [List.take_append j]
      have e2 : (m ++ (' ' :: [])) ++ (r.take k).take j = m ++ ' ' :: (r.take k).take j := by
        simp
      rw [e2, parse_line_method m ((r.take k).take j) (fun x hx => (hm x hx).1)]
      cases hf3 : findChar ' ' ((r.take k).take j) with
      | none => simp only [handle_stage2, hf1, hf2, hf3]
      | some j2 => simp only [handle_stage2, hf1, hf2, hf3]

/-- The status of `dispatch` is always one of 405, 403, 404, 200. -/
theorem dispatch_status (fs : List Char → List Char) (m p : List Char) :
    (dispatch fs m p).status = 405 ∨ (dispatch fs m p).status = 403 ∨
    (dispatch fs m p).status = 404 ∨ (dispatch fs m p).status = 200 := by
  simp only [dispatch]
  split_ifs <;> simp

/-! ## Claim theorems -/

/-- Claim C1, counterexample: the stated resolved-path invariant fails.  The
target `/%2e%2e/x` passes `is_safe_path` (it holds no literal `..`), yet the
resolved path decodes to `../x`, which contains `..`, and the dispatcher
serves whatever the filesystem holds at `../x` with status 200. -/
theorem c1_counterexample :
    is_safe_path "/%2e%2e/x".toList = true ∧
    containsSub ('.' :: '.' :: []) (resolved_path_of "/%2e%2e/x".toList) = true ∧
    handle_request (fun f => if f = "../x".toList then "SECRET".toList else [])
        "GET /%2e%2e/x HTTP/1.1\r\nA: b\r\n\r\n".toList =
      ⟨200, "application/octet-stream".toList, "SECRET".toList⟩ := by
  decide

/-- Claim C1, amended: for every request that reaches the file-lookup step
(the target passed `is_safe_path`), the resolved path is never empty (the
default document `index.html` is substituted when the original target is
`/` or empty), and the path *before decoding* contains no `..`, `//` or
backslash; after percent-decoding those sequences can reappear. -/
theorem c1_amended (path : List Char) (hsafe : is_safe_path path = true) :
    resolved_path_of path ≠ [] ∧
    is_safe_path (normalize_path path) = true ∧
    ((path = [] ∨ path = '/' :: []) → resolved_path_of path = "index.html".toList) := by
  refine ⟨url_decode_ne_nil _ (normalize_path_ne_nil path),
    is_safe_path_normalize path hsafe, fun h => ?_⟩
  rw [resolved_path_of, normalize_path_default path h]
  decide

/-- Concrete instance of `c1_amended` at the target `/a`. -/
theorem c1_amended_witness :
    resolved_path_of ('/' :: 'a' :: []) ≠ [] :=
  (c1_amended ('/' :: 'a' :: []) (by decide)).1

/-- Claim C2, counterexample: request-line parsing succeeds on `" x y"` with
an *empty* method, and on `"GET  HTTP/1.1"` (two spaces) with an *empty*
path, so success does not imply both fields non-empty. -/
theorem c2_counterexample :
    parse_request_line (' ' :: 'x' :: ' ' :: 'y' :: []) = some ([], 'x' :: []) ∧
    parse_request_line "GET  HTTP/1.1".toList = some ("GET".toList, []) := by
  decide

/-- Claim C2, amended: parsing succeeds exactly when the line has two
spaces, and then the line splits as `method ++ " " ++ path ++ " " ++ rest`
with neither method nor path containing a space — but either may be empty. -/
theorem c2_amended (line m p : List Char)
    (h : parse_request_line line = some (m, p)) :
    (' ' ∉ m ∧ ' ' ∉ p) ∧ ∃ rest, line = m ++ ' ' :: (p ++ ' ' :: rest) := by
  simp only [parse_request_line] at h
  cases hf1 : findChar ' ' line with
  | none => rw [hf1] at h; simp at h
  | some space1 =>
    rw [hf1] at h
    simp only [findCharFrom] at h
    cases hf2 : findChar ' ' (line.drop (space1 + 1)) with
    | none => rw [hf2] at h; simp at h
    | some j =>
      rw [hf2] at h
      simp only [Option.map_some', Option.some.injEq, Prod.mk.injEq] at h
      obtain ⟨hm, hp⟩ := h
      obtain ⟨a, b, hab, hlen, hnma⟩ := findChar_some ' ' line space1 hf1
      have hdrop : line.drop (space1 + 1) = b := by
        rw [hab, ← hlen]
        exact drop_len_succ a ' ' b
      obtain ⟨a2, b2, hab2, hlen2, hnma2⟩ :=
        findChar_some ' ' (line.drop (space1 + 1)) j hf2
      rw [hdrop] at hab2
      have hma : m = a := by
        rw [← hm, hab, ← hlen]
        exact List.take_left a (' ' :: b)
      have harith : space1 + 1 + j - space1 - 1 = j := by omega
      have hpa : p = a2 := by
        rw [← hp, hdrop, harith, hab2, ← hlen2]
        exact List.take_left a2 (' ' :: b2)
      subst hma
      subst hpa
      exact ⟨⟨hnma, hnma2⟩, b2, by rw [hab, hab2]⟩

/-- Concrete instance of `c2_amended` on `GET /i HTTP/1.1`. -/
theorem c2_amended_witness :
    (' ' ∉ "GET".toList ∧ ' ' ∉ "/i".toList) ∧
    ∃ rest, "GET /i HTTP/1.1".toList =
      "GET".toList ++ ' ' :: ("/i".toList ++ ' ' :: rest) :=
  c2_amended "GET /i HTTP/1.1".toList "GET".toList "/i".toList (by decide)

/-- Claim C3, confirmed: past the method and safety checks, an empty lookup
result (missing, unreadable, or genuinely empty file alike) yields 404, and
the response is 200 with the looked-up bytes as body exactly when the
lookup result is non-empty. -/
theorem c3_empty_lookup (fs : List Char → List Char) (method path : List Char)
    (hm : method = "GET".toList ∨ method = "HEAD".toList)
    (hsafe : is_safe_path path = true) :
    (fs (resolved_path_of path) = [] →
      dispatch fs method path =
        ⟨404, "text/html".toList, generate_error_page 404 "Not Found".toList⟩) ∧
    (fs (resolved_path_of path) ≠ [] →
      dispatch fs method path =
        ⟨200, get_mime_type (resolved_path_of path), fs (resolved_path_of path)⟩) ∧
    ((dispatch fs method path).status = 200 ↔ fs (resolved_path_of path) ≠ []) := by
  rw [dispatch_allowed fs method path hm, if_neg (by simp [hsafe])]
  by_cases hempty : fs (resolved_path_of path) = []
  · rw [if_pos hempty]
    exact ⟨fun _ => rfl, fun hne => absurd hempty hne, by simp [hempty]⟩
  · rw [if_neg hempty]
    exact ⟨fun he => absurd he hempty, fun _ => rfl, by simp [hempty]⟩

/-- Concrete instance of `c3_empty_lookup`: an everywhere-empty filesystem
gives 404 for `GET /a`. -/
theorem c3_witness :
    dispatch (fun _ => []) "GET".toList ('/' :: 'a' :: []) =
      ⟨404, "text/html".toList, generate_error_page 404 "Not Found".toList⟩ :=
  (c3_empty_lookup (fun _ => []) "GET".toList ('/' :: 'a' :: [])
    (Or.inl rfl) (by decide)).1 rfl

/-- Claim C4, confirmed: `handle_request` is a total function — exactly one
response per raw buffer — whose status is one of 200, 400, 403, 404, 405,
and 500 is never emitted. -/
theorem c4_status_codes (fs : List Char → List Char) (request : List Char) :
    ((handle_request fs request).status = 200 ∨
     (handle_request fs request).status = 400 ∨
     (handle_request fs request).status = 403 ∨
     (handle_request fs request).status = 404 ∨
     (handle_request fs request).status = 405) ∧
    (handle_request fs request).status ≠ 500 := by
  suffices h : (handle_request fs request).status = 400 ∨
      (handle_request fs request).status = 405 ∨
      (handle_request fs request).status = 403 ∨
      (handle_request fs request).status = 404 ∨
      (handle_request fs request).status = 200 by
    constructor
    · tauto
    · rcases h with h | h | h | h | h <;> omega
  rw [handle_request]
  split
  · exact Or.inl rfl
  · split
    · exact Or.inl rfl
    · split
      · exact Or.inl rfl
      · exact Or.inr (dispatch_status fs _ _)

/-- Concrete instance of `c4_status_codes`: a well-formed GET request never
yields 500. -/
theorem c4_witness :
    (handle_request (fun _ => []) "GET / HTTP/1.1\r\nA: b\r\n\r\n".toList).status ≠ 500 :=
  (c4_status_codes (fun _ => []) "GET / HTTP/1.1\r\nA: b\r\n\r\n".toList).2

/-- Claim C5, confirmed: `is_safe_path` returns true exactly on the strings
that contain none of `..`, `//`, backslash as a literal substring of the
input string itself — no decoding is involved in the characterization. -/
theorem c5_safe_path_characterization (p : List Char) :
    is_safe_path p = true ↔
      ¬((∃ a b, p = a ++ ('.' :: '.' :: []) ++ b) ∨
        (∃ a b, p = a ++ ('/' :: '/' :: []) ++ b) ∨
        '\\' ∈ p) := by
  rw [is_safe_path_iff]
  simp only [not_or]

/-- Concrete instance of `c5_safe_path_characterization` at `/a`. -/
theorem c5_witness :
    is_safe_path ('/' :: 'a' :: []) = true ↔
      ¬((∃ a b, ('/' :: 'a' :: [] : List Char) = a ++ ('.' :: '.' :: []) ++ b) ∨
        (∃ a b, ('/' :: 'a' :: [] : List Char) = a ++ ('/' :: '/' :: []) ++ b) ∨
        '\\' ∈ ('/' :: 'a' :: [] : List Char)) :=
  c5_safe_path_characterization ('/' :: 'a' :: [])

/-- Claim C6, confirmed: `%XY` with two hex digits (two characters remaining
after `%`) decodes to the byte 0xXY, `+` decodes to a space, and decoding is
the identity on strings containing neither `%` nor `+`. -/
theorem c6_decode_rules (c1 c2 : Char) (v1 v2 : Nat) (rest s : List Char) :
    (hexDigitVal c1 = some v1 → hexDigitVal c2 = some v2 →
      url_decode ('%' :: c1 :: c2 :: rest) =
        Char.ofNat (16 * v1 + v2) :: url_decode rest) ∧
    url_decode ('+' :: rest) = ' ' :: url_decode rest ∧
    ((∀ x ∈ s, x ≠ '%' ∧ x ≠ '+') → url_decode s = s) := by
  refine ⟨fun h1 h2 => url_decode_hex c1 c2 v1 v2 rest h1 h2,
    url_decode_plus rest, fun hs => ?_⟩
  have h := url_decode_plain_append s [] hs
  rw [List.append_nil, url_decode_nil, List.append_nil] at h
  exact h

/-- Concrete instance of `c6_decode_rules`: `%41` decodes to `A` (byte 65),
`+` to space, `ab` to itself. -/
theorem c6_witness :
    url_decode ('%' :: '4' :: '1' :: []) = Char.ofNat 65 :: url_decode [] ∧
    url_decode ('+' :: []) = ' ' :: url_decode [] ∧
    url_decode ('a' :: 'b' :: []) = 'a' :: 'b' :: [] := by
  obtain ⟨h1, h2, h3⟩ := c6_decode_rules '4' '1' 4 1 [] ('a' :: 'b' :: [])
  exact ⟨h1 (by decide) (by decide), h2, h3 (by decide)⟩

/-- Claim C7, counterexample: a trailing `%` is *not* always emitted
verbatim.  On `%4%` the trailing `%` is consumed as data of the `%4%`
escape (the loop bound `i+2 < size` holds at the leading `%`), producing
the single byte 0x04 with no `%` in the output; and on `%+` the character
after the literally-emitted `%` becomes a space rather than staying
verbatim. -/
theorem c7_counterexample :
    url_decode ('%' :: '4' :: '%' :: []) = Char.ofNat 4 :: [] ∧
    containsSub ('%' :: []) (url_decode ('%' :: '4' :: '%' :: [])) = false ∧
    url_decode ('%' :: '+' :: []) = '%' :: ' ' :: [] := by
  decide

/-- Claim C7, amended: decoding is total (no out-of-bounds access), and a
trailing `%`, or trailing `%c` with `c ≠ '+'`, is emitted verbatim whenever
the preceding characters contain no `%` and no `+` (so the trailing `%` is
reached as a decode position rather than consumed by an earlier escape). -/
theorem c7_amended (s : List Char) (c : Char)
    (hs : ∀ x ∈ s, x ≠ '%' ∧ x ≠ '+') :
    url_decode (s ++ '%' :: []) = s ++ '%' :: [] ∧
    (c ≠ '+' → url_decode (s ++ '%' :: c :: []) = s ++ '%' :: c :: []) := by
  constructor
  · rw [url_decode_plain_append s _ hs, url_decode_pct_end]
  · intro hc
    rw [url_decode_plain_append s _ hs, url_decode_pct_one]
    by_cases hcp : c = '%'
    · subst hcp
      rfl
    · rw [url_decode_other c [] hcp hc, url_decode_nil]

/-- Concrete instance of `c7_amended`: `ab%` and `ab%4` decode to
themselves. -/
theorem c7_amended_witness :
    url_decode ('a' :: 'b' :: '%' :: []) = 'a' :: 'b' :: '%' :: [] ∧
    url_decode ('a' :: 'b' :: '%' :: '4' :: []) = 'a' :: 'b' :: '%' :: '4' :: [] := by
  obtain ⟨h1, h2⟩ := c7_amended ('a' :: 'b' :: []) '4' (by decide)
  exact ⟨h1, h2 (by decide)⟩

/-- Claim C8, confirmed: MIME resolution takes the substring from the last
`.` to the end, lower-cases it and looks it up in the fixed table, so
`….HTML` and `….html` resolve identically; a name without `.` and a name
ending in `.` (empty/unrecognized extension) fall back to
`application/octet-stream`. -/
theorem c8_mime_resolution (f : List Char) :
    (get_mime_type (f ++ ('.' :: 'H' :: 'T' :: 'M' :: 'L' :: [])) =
       "text/html; charset=utf-8".toList ∧
     get_mime_type (f ++ ('.' :: 'h' :: 't' :: 'm' :: 'l' :: [])) =
       "text/html; charset=utf-8".toList) ∧
    ('.' ∉ f → get_mime_type f = "application/octet-stream".toList) ∧
    get_mime_type (f ++ ('.' :: [])) = "application/octet-stream".toList := by
  refine ⟨⟨?_, ?_⟩, fun h => get_mime_type_no_dot f h, ?_⟩
  · rw [get_mime_type_ext f ('H' :: 'T' :: 'M' :: 'L' :: []) (by decide)]
    decide
  · rw [get_mime_type_ext f ('h' :: 't' :: 'm' :: 'l' :: []) (by decide)]
    decide
  · rw [get_mime_type_ext f [] (by decide)]
    decide

/-- Concrete instance of `c8_mime_resolution` at `a.HTML` and `a`. -/
theorem c8_witness :
    get_mime_type ('a' :: '.' :: 'H' :: 'T' :: 'M' :: 'L' :: []) =
      "text/html; charset=utf-8".toList ∧
    get_mime_type ('a' :: []) = "application/octet-stream".toList := by
  obtain ⟨⟨h1, _⟩, h2, _⟩ := c8_mime_resolution ('a' :: [])
  exact ⟨h1, h2 (by decide)⟩

/-- Claim C9, confirmed: every framed response carries a `Content-Length`
header whose value is the exact byte length of the body, followed by the
body itself intact (so for a served file of N bytes both the header value
and the body length are N), and the status text is resolved from the fixed
table with fallback `"Unknown"` for unmapped codes. -/
theorem c9_framing (date : List Char) (code : Nat) (ct body : List Char) :
    (∃ pre, send_response_bytes date code ct body =
      pre ++ "Content-Length: ".toList ++ (Nat.repr body.length).toList
        ++ "\r\n".toList ++ "Connection: close\r\n".toList ++ "\r\n".toList ++ body) ∧
    statusTextOf code =
      (if code = 200 then "OK".toList
       else if code = 400 then "Bad Request".toList
       else if code = 403 then "Forbidden".toList
       else if code = 404 then "Not Found".toList
       else if code = 405 then "Method Not Allowed".toList
       else if code = 500 then "Internal Server Error".toList
       else "Unknown".toList) := by
  refine ⟨⟨"HTTP/1.1 ".toList ++ (Nat.repr code).toList ++ " ".toList
    ++ statusTextOf code ++ "\r\n".toList ++ "Server: MyHttpServer/1.0\r\n".toList
    ++ "Date: ".toList ++ date ++ "\r\n".toList
    ++ "Content-Type: ".toList ++ ct ++ "\r\n".toList, ?_⟩, statusTextOf_eq code⟩
  simp only [send_response_bytes, build_response_headers, List.append_assoc]

/-- Concrete instance of `c9_framing`: the unmapped code 999 gets status
text `Unknown`. -/
theorem c9_witness : statusTextOf 999 = "Unknown".toList := by
  have h := (c9_framing [] 999 [] []).2
  simpa using h

/-- Claim C10, confirmed: for every raw request of the form
`"HEAD " ++ rest`, the server's response is byte-for-byte identical to the
response for `"GET " ++ rest` — in particular the body of a successful HEAD
response is the complete file contents, not suppressed. -/
theorem c10_head_equals_get (fs : List Char → List Char) (r : List Char) :
    handle_request fs ("HEAD".toList ++ ' ' :: r) =
      handle_request fs ("GET".toList ++ ' ' :: r) := by
  rw [handle_request_method fs "HEAD".toList r (by decide),
    handle_request_method fs "GET".toList r (by decide)]
  cases hk : findSub ('\r' :: '\n' :: '\r' :: '\n' :: []) r with
  | none => simp only [handle_stage2, hk]
  | some k =>
    cases hj : findSub ('\r' :: '\n' :: []) (r.take k) with
    | none => simp only [handle_stage2, hk, hj]
    | some j =>
      cases hc : findChar ' ' ((r.take k).take j) with
      | none => simp only [handle_stage2, hk, hj, hc]
      | some j2 =>
        simp only [handle_stage2, hk, hj, hc]
        exact dispatch_head_eq_get fs (((r.take k).take j).take j2)

/-- Concrete instance of `c10_head_equals_get` on `HEAD / HTTP/1.1`. -/
theorem c10_witness :
    handle_request (fun _ => []) ("HEAD".toList ++ ' ' :: "/ HTTP/1.1\r\nA: b\r\n\r\n".toList) =
      handle_request (fun _ => []) ("GET".toList ++ ' ' :: "/ HTTP/1.1\r\nA: b\r\n\r\n".toList) :=
  c10_head_equals_get (fun _ => []) "/ HTTP/1.1\r\nA: b\r\n\r\n".toList

end Diet
